import Mathlib

/-!
Verification of the ng12-referral-assistant repository: a shallow Lean
embedding of the patient store (`app/tools/patient_db.py`), the chat flow
(`app/agents/chat_agent.py`) and the assessment flow
(`app/agents/ng12_agent.py`), together with theorems settling claims
about them.

External collaborators (the vector store and the hosted model) are
modelled as parameters: the retrieved chunk list, the model call outcome
and the `json.loads` parsing function are inputs of the embedded flows.
-/

namespace NG12

mutual
/-- Values produced by Python's `json.loads`: null, booleans, numbers,
strings, arrays and objects (an object is a key/value field list).
Arrays and objects carry bespoke list types so that decidable equality
(Python's structural `==` on parsed JSON) can be derived. -/
inductive Json where
  | null : Json
  | bool (b : Bool) : Json
  | num (n : Int) : Json
  | str (s : String) : Json
  | arr (xs : JsonList) : Json
  | obj (fs : JsonFields) : Json
  deriving DecidableEq

/-- A list of JSON values (elements of a JSON array). -/
inductive JsonList where
  | nil : JsonList
  | cons (hd : Json) (tl : JsonList) : JsonList
  deriving DecidableEq

/-- The fields of a JSON object: key/value pairs in order. -/
inductive JsonFields where
  | nil : JsonFields
  | fcons (key : String) (val : Json) (tl : JsonFields) : JsonFields
  deriving DecidableEq
end

/-- View a `JsonList` as a Lean list. -/
def JsonList.toList : JsonList → List Json
  | .nil => []
  | .cons h t => h :: t.toList

/-- Build a `JsonList` from a Lean list. -/
def JsonList.ofList : List Json → JsonList
  | [] => .nil
  | h :: t => .cons h (JsonList.ofList t)

/-- View `JsonFields` as a Lean association list. -/
def JsonFields.toList : JsonFields → List (String × Json)
  | .nil => []
  | .fcons k v t => (k, v) :: t.toList

/-- Build `JsonFields` from a Lean association list. -/
def JsonFields.ofList : List (String × Json) → JsonFields
  | [] => .nil
  | (k, v) :: t => .fcons k v (JsonFields.ofList t)

/-- A JSON array given by a Lean list of elements. -/
def Json.arrOf (xs : List Json) : Json := .arr (JsonList.ofList xs)

/-- A JSON object given by a Lean list of fields. -/
def Json.objOf (fs : List (String × Json)) : Json := .obj (JsonFields.ofList fs)

theorem JsonList.toList_ofList_elems (l : List Json) : (JsonList.ofList l).toList = l := by
  induction l with
  | nil => rfl
  | cons h t ih => simp [JsonList.ofList, JsonList.toList, ih]

theorem JsonFields.toList_ofList_fields (l : List (String × Json)) :
    (JsonFields.ofList l).toList = l := by
  induction l with
  | nil => rfl
  | cons h t ih =>
      obtain ⟨k, v⟩ := h
      simp [JsonFields.ofList, JsonFields.toList, ih]

/-- Python exceptions that the embedded flows can raise past their
try/except protection. -/
inductive PyErr where
  | attributeError : PyErr
  | typeError : PyErr
  deriving DecidableEq

/-- Whether a JSON value is an object (a Python dict). -/
def Json.isObj : Json → Bool
  | .obj _ => true
  | _ => false

/-- Python `d.get(key, default)` on a parsed-JSON value: on a dict, the
value of the first field with the key, else the default; on any other
value the attribute access `.get` raises `AttributeError`. -/
def dictGetD (j : Json) (k : String) (d : Json) : Except PyErr Json :=
  match j with
  | .obj fs =>
      match fs.toList.find? (fun f => f.1 = k) with
      | some f => .ok f.2
      | none => .ok d
  | _ => .error .attributeError

/-- Python `d.get(key)` (default `None`, modelled as `Json.null`). -/
def dictGetOpt (j : Json) (k : String) : Except PyErr Json :=
  dictGetD j k .null

/-- Python `for x in j`: iterating an array yields its elements, a string
its characters, a dict its keys; other values raise `TypeError`. -/
def pyIter (j : Json) : Except PyErr (List Json) :=
  match j with
  | .arr xs => .ok xs.toList
  | .str s => .ok (s.data.map (fun c => Json.str (String.mk [c])))
  | .obj fs => .ok (fs.toList.map (fun f => Json.str f.1))
  | _ => .error .typeError

/-! ## Patient store (`app/tools/patient_db.py`)

A stored patient record is a Python dict; the claims depend only on the
`"patient_id"` key, so a record is modelled as the value of that key when
present (`pid`) together with the remaining fields (`rest`, opaque). -/

/-- A patient record: the value of its `"patient_id"` key when the key is
present, plus the rest of the record. -/
structure PatientRec where
  pid : Option String
  rest : Json
  deriving DecidableEq

/-- The loop of `add_new_patients`: for each incoming record, append it to
the data and bump the count when it has a `"patient_id"` that is not in
`existing_ids`; `existing_ids` is the set computed before the loop and is
never extended inside it, exactly as in the source. -/
def addLoop (existing_ids : List String) (data : List PatientRec) (count : Nat) :
    List PatientRec → List PatientRec × Nat
  | [] => (data, count)
  | p :: ps =>
      match p.pid with
      | some i =>
          if i ∈ existing_ids then addLoop existing_ids data count ps
          else addLoop existing_ids (data ++ [p]) (count + 1) ps
      | none => addLoop existing_ids data count ps

/-- `add_new_patients` from `patient_db.py`: reads the stored records,
builds the set of existing IDs (`{p["patient_id"] for p in existing_data}`,
which raises `KeyError` — modelled as `none` — if a stored record lacks the
key), then runs the append loop. The result is the stored record list
after the call together with the returned added count (when the count is
zero the file is not rewritten, and the list is unchanged anyway). -/
def add_new_patients (stored : List PatientRec) (new_patients : List PatientRec) :
    Option (List PatientRec × Nat) :=
  match stored.mapM PatientRec.pid with
  | none => none
  | some existing_ids => some (addLoop existing_ids stored 0 new_patients)

/-! ## Session store and chat flow (`app/agents/chat_agent.py`)

The module-level `sessions` dict is modelled as an association list that
every operation takes and returns explicitly. The external collaborators
of `chat_with_guidelines` are parameters: `docs` is what
`search_guidelines` returned, `modelOutcome` is the model call (an
exception, or the response text), and `loads` is `json.loads` (returning
`none` on text that is not valid JSON). -/

/-- One entry of a session's message list: a dict with `"role"` and
`"content"` keys. The content is a JSON value because assistant entries
store `response_json.get("answer", "")`, which can be any JSON value. -/
structure Msg where
  role : String
  content : Json
  deriving DecidableEq

/-- The process-wide `sessions` dict: session id to message list. -/
abbrev Sessions := List (String × List Msg)

/-- Lookup of a session id in the store (Python dict indexing). -/
def sessionsGet (s : Sessions) (k : String) : Option (List Msg) :=
  (s.find? (fun e => e.1 = k)).map (fun e => e.2)

/-- Python `sessions[k] = v`: overwrite the entry when present, else add it. -/
def setSession (s : Sessions) (k : String) (v : List Msg) : Sessions :=
  match s with
  | [] => [(k, v)]
  | e :: rest => if e.1 = k then (k, v) :: rest else e :: setSession rest k v

/-- Python `del sessions[k]`. -/
def delSession (s : Sessions) (k : String) : Sessions :=
  s.eraseP (fun e => e.1 = k)

/-- `get_chat_history` from `chat_agent.py`: `sessions.get(session_id, [])`. -/
def get_chat_history (sessions : Sessions) (session_id : String) : List Msg :=
  (sessionsGet sessions session_id).getD []

/-- `clear_chat_history` from `chat_agent.py`: delete the entry when the
session id is present, otherwise do nothing. -/
def clear_chat_history (sessions : Sessions) (session_id : String) : Sessions :=
  if (sessionsGet sessions session_id).isSome then delSession sessions session_id
  else sessions

/-- The `"page"` metadata value of a retrieved chunk: an int or some other
(non-int) value, modelled by its display string. -/
inductive PageVal where
  | int (n : Int) : PageVal
  | str (s : String) : PageVal
  deriving DecidableEq

/-- A retrieved guideline chunk: its text and its optional `"page"`
metadata value. -/
structure Doc where
  page_content : String
  page_meta : Option PageVal
  deriving DecidableEq

/-- Page display in the chat context block: `page = doc.metadata.get("page", 0)`
then `page + 1 if isinstance(page, int) else page`. -/
def chatDisplayPage (doc : Doc) : PageVal :=
  match doc.page_meta.getD (PageVal.int 0) with
  | .int n => .int (n + 1)
  | .str s => .str s

/-- Page display in the assessment context block of `ng12_agent.py`,
computed by the same expression as in the chat flow. -/
def assessDisplayPage (doc : Doc) : PageVal :=
  match doc.page_meta.getD (PageVal.int 0) with
  | .int n => .int (n + 1)
  | .str s => .str s

/-- The chunk-deduplication loop of `chat_with_guidelines`: walk the
retrieved docs, appending each doc whose `page_content` has not been seen
to `unique_docs` and recording the content in `seen_content`. -/
def dedupDocsLoop (unique_docs : List Doc) (seen_content : List String) :
    List Doc → List Doc
  | [] => unique_docs
  | doc :: rest =>
      if doc.page_content ∈ seen_content then
        dedupDocsLoop unique_docs seen_content rest
      else
        dedupDocsLoop (unique_docs ++ [doc]) (doc.page_content :: seen_content) rest

/-- The deduplicated chunk list the chat context block is composed from. -/
def uniqueDocs (docs : List Doc) : List Doc := dedupDocsLoop [] [] docs

/-- Rendering of a page value inside an f-string. -/
def pageValString : PageVal → String
  | .int n => toString n
  | .str s => s

/-- One entry of the chat context block:
`"[ID: chunk_i+1 | Page display_page]\n" + content + "\n\n"`. -/
def contextEntry (i : Nat) (doc : Doc) : String :=
  "[ID: chunk_" ++ toString (i + 1) ++ " | Page "
    ++ pageValString (chatDisplayPage doc) ++ "]\n" ++ doc.page_content ++ "\n\n"

/-- The chat context block composed from the deduplicated chunks. -/
def contextText (unique_docs : List Doc) : String :=
  String.join (unique_docs.enum.map (fun e => contextEntry e.1 e.2))

/-- One entry of the assessment context block of `ng12_agent.py`:
`"[Page display_page]\n" + content`. -/
def assessContextEntry (doc : Doc) : String :=
  "[Page " ++ pageValString (assessDisplayPage doc) ++ "]\n" ++ doc.page_content

/-- The assessment context: entries joined with `"\n\n"`. -/
def assessContext (chunks : List Doc) : String :=
  String.intercalate "\n\n" (chunks.map assessContextEntry)

/-- The fixed fallback response dict of the chat flow. -/
def fallbackResponse : Json :=
  Json.objOf
    [("answer", .str "I encountered an error processing your request. Please try again."),
     ("citations", Json.arrOf [])]

/-- The try/except block of `chat_with_guidelines`: when the model call
raises, or its text is not valid JSON, `response_json` is the fixed
fallback dict; otherwise it is the parsed value. -/
def effectiveResponse (loads : String → Option Json)
    (modelOutcome : Except Unit String) : Json :=
  match modelOutcome with
  | .error _ => fallbackResponse
  | .ok t =>
      match loads t with
      | none => fallbackResponse
      | some j => j

/-- The citation-deduplication loop of `chat_with_guidelines`: the
signature of a citation is `(cit.get("page"), cit.get("excerpt"))` — a
`.get` that raises `AttributeError` when the citation is not a dict — and
a citation is kept when its signature has not been seen. -/
def dedupCitationsLoop (unique_citations : List Json)
    (seen_citations : List (Json × Json)) :
    List Json → Except PyErr (List Json)
  | [] => .ok unique_citations
  | cit :: rest =>
      match dictGetOpt cit "page" with
      | .error e => .error e
      | .ok pg =>
          match dictGetOpt cit "excerpt" with
          | .error e => .error e
          | .ok ex =>
              if (pg, ex) ∈ seen_citations then
                dedupCitationsLoop unique_citations seen_citations rest
              else
                dedupCitationsLoop (unique_citations ++ [cit])
                  ((pg, ex) :: seen_citations) rest

/-- The dict returned by `chat_with_guidelines`. -/
structure ChatReturn where
  session_id : String
  answer : Json
  citations : List Json
  deriving DecidableEq

/-- `chat_with_guidelines` from `chat_agent.py`. Steps, as in the source:
deduplicate the retrieved docs and compose the context block; create the
session entry when absent; resolve the model call and JSON parse to a
response dict (fixed fallback on exception or invalid JSON); append the
user message; append the assistant message, whose content
`response_json.get("answer", "")` can raise `AttributeError` first (in
which case only the user message has been appended); deduplicate the
citations; return the result dict. The prompt string itself only feeds
the external model, which is the `modelOutcome` parameter, so its text is
not tracked. The function returns the outcome (result dict, or the
exception that propagates) together with the final session store. -/
def chat_with_guidelines (loads : String → Option Json)
    (modelOutcome : Except Unit String) (docs : List Doc)
    (sessions : Sessions) (session_id : String) (user_message : String) :
    Except PyErr ChatReturn × Sessions :=
  let unique_docs := uniqueDocs docs
  let _context_text := contextText unique_docs
  let sessions1 :=
    if (sessionsGet sessions session_id).isSome then sessions
    else setSession sessions session_id []
  let history := get_chat_history sessions1 session_id
  let response_json := effectiveResponse loads modelOutcome
  let sessions2 := setSession sessions1 session_id
      (history ++ [{ role := "user", content := .str user_message }])
  match dictGetD response_json "answer" (.str "") with
  | .error e => (.error e, sessions2)
  | .ok answer =>
      let sessions3 := setSession sessions2 session_id
          ((history ++ [{ role := "user", content := .str user_message }])
            ++ [{ role := "model", content := answer }])
      match dictGetD response_json "citations" (Json.arrOf []) with
      | .error e => (.error e, sessions3)
      | .ok raw =>
          match pyIter raw with
          | .error e => (.error e, sessions3)
          | .ok raw_citations =>
              match dedupCitationsLoop [] [] raw_citations with
              | .error e => (.error e, sessions3)
              | .ok unique_citations =>
                  (.ok { session_id := session_id, answer := answer,
                         citations := unique_citations }, sessions3)

/-! ## Assessment flow (`app/agents/ng12_agent.py`)

`assess_patient` is wrapped in `@lru_cache(maxsize=32)`. The cache is
modelled by CPython's semantics: a bounded store of key/value entries in
recency order — a hit moves the entry to the front and does not run the
body, a miss runs the body, inserts the entry at the front and evicts the
least-recently-used entry when the store already holds `maxsize` entries.
The body of `assess_patient` (patient lookup, retrieval, model call,
parse) is abstracted as the oracle `f`; an invocation log records every
run of the body, so re-invocation is observable. -/

/-- The state of an `lru_cache`-wrapped function: cached entries, most
recent first, plus the log of body invocations in order. -/
structure LruState (β : Type) where
  entries : List (String × β)
  log : List String

/-- Cache lookup: the value of the first entry with the key. -/
def lruLookup (entries : List (String × β)) (k : String) : Option β :=
  (entries.find? (fun e => e.1 = k)).map (fun e => e.2)

/-- One call of the wrapped function on key `k`. -/
def lruCall (maxsize : Nat) (f : String → β) (k : String) (st : LruState β) :
    β × LruState β :=
  match lruLookup st.entries k with
  | some v => (v, ⟨(k, v) :: st.entries.eraseP (fun e => e.1 = k), st.log⟩)
  | none => (f k, ⟨List.take maxsize ((k, f k) :: st.entries), st.log ++ [k]⟩)

/-- A sequence of calls of the wrapped function, in order. -/
def lruRun (maxsize : Nat) (f : String → β) (keys : List String) (st : LruState β) :
    LruState β :=
  match keys with
  | [] => st
  | k :: ks => lruRun maxsize f ks (lruCall maxsize f k st).2

/-- `assess_patient` as seen through its `@lru_cache(maxsize=32)` wrapper:
one call with a patient id against the current cache state. -/
def assess_patient_cached (f : String → β) (patient_id : String)
    (st : LruState β) : β × LruState β :=
  lruCall 32 f patient_id st

/-! ### The response-parsing stage of `assess_patient`

The try/except block at the end of `assess_patient`: `response.text` can
raise `ValueError` ("Content has no parts", safety/recitation refusal),
`json.loads` can raise `json.JSONDecodeError`, and the
`patient_summary` coercion can raise `TypeError` when the parsed value is
not a dict. Python dispatches a raised exception to the first `except`
clause whose class it is an instance of — and `json.JSONDecodeError` is a
subclass of `ValueError`. -/

/-- The outcome of `model.generate_content(...)` as seen by `response.text`:
either the response has no parts (`.text` raises `ValueError`) or it is a
text. -/
inductive RespOutcome where
  | noParts : RespOutcome
  | text (s : String) : RespOutcome
  deriving DecidableEq

/-- The exception classes named by the `except` clauses. -/
inductive PyExcClass where
  | valueErrorC : PyExcClass
  | jsonDecodeErrorC : PyExcClass
  deriving DecidableEq

/-- The exceptions the try body of the parse stage can raise. -/
inductive AssessExc where
  | valueErrorE : AssessExc
  | jsonDecodeErrorE : AssessExc
  | typeErrorE : AssessExc
  deriving DecidableEq

/-- Python's `isinstance` for the exceptions at hand: `json.JSONDecodeError`
is a subclass of `ValueError`, so it is an instance of both classes;
`TypeError` is an instance of neither. -/
def isInstanceOf : AssessExc → PyExcClass → Bool
  | .valueErrorE, .valueErrorC => true
  | .valueErrorE, .jsonDecodeErrorC => false
  | .jsonDecodeErrorE, .valueErrorC => true
  | .jsonDecodeErrorE, .jsonDecodeErrorC => true
  | .typeErrorE, _ => false

/-- Python's handler dispatch: the value of the first `except` clause
whose class the raised exception is an instance of; `none` when no clause
matches (the exception propagates). -/
def firstHandler (e : AssessExc) : List (PyExcClass × α) → Option α
  | [] => none
  | h :: hs => if isInstanceOf e h.1 then some h.2 else firstHandler e hs

/-- What the parse stage of `assess_patient` returns, tagged by the branch
that produced it: the parsed (and summary-coerced) dict from the try body,
the fixed "Unable to assess" payload from the `except ValueError` clause,
or the `{"assessment": response.text}` payload from the
`except json.JSONDecodeError` clause. -/
inductive AssessOut where
  | parsed (j : Json) : AssessOut
  | refusal : AssessOut
  | rawAssessment (s : String) : AssessOut
  deriving DecidableEq

/-- Whether a JSON value is a string. -/
def Json.isStr : Json → Bool
  | .str _ => true
  | _ => false

/-- Python `key in data` for a parsed-JSON value: key test on a dict,
element test on a list, substring test on a string; `TypeError` otherwise. -/
def pyContains (data : Json) (s : String) : Except AssessExc Bool :=
  match data with
  | .obj fs => .ok (fs.toList.any (fun f => f.1 = s))
  | .arr xs => .ok (xs.toList.contains (Json.str s))
  | .str t => .ok (2 ≤ (t.splitOn s).length)
  | _ => .error .typeErrorE

/-- Replace the value of the first field with the given key. -/
def setField (fs : JsonFields) (k : String) (v : Json) : JsonFields :=
  match fs with
  | .nil => .nil
  | .fcons k' v' t => if k' = k then .fcons k' v t else .fcons k' v' (setField t k v)

/-- The `patient_summary` coercion:
`if "patient_summary" in data and not isinstance(data["patient_summary"], str):`
replace the value with `str(...)` of it (the rendering `pyStr` is a
parameter — no claim depends on its text). Indexing a non-dict with a
string key raises `TypeError`. -/
def coerceSummary (pyStr : Json → String) (data : Json) : Except AssessExc Json :=
  match pyContains data "patient_summary" with
  | .error e => .error e
  | .ok haskey =>
      if haskey then
        match data with
        | .obj fs =>
            match fs.toList.find? (fun f => f.1 = "patient_summary") with
            | some f =>
                if f.2.isStr then .ok data
                else .ok (.obj (setField fs "patient_summary" (.str (pyStr f.2))))
            | none => .ok data
        | _ => .error .typeErrorE
      else
        .ok data

/-- The text the `except json.JSONDecodeError` clause would read back from
`response.text` (the clause only fires — if ever — after `.text`
succeeded, so the `noParts` case is immaterial). -/
def respText : RespOutcome → String
  | .noParts => ""
  | .text s => s

/-- The `except` clauses of the parse stage, in source order:
`except ValueError` returning the fixed "Unable to assess" payload, then
`except json.JSONDecodeError` returning `{"assessment": response.text}`. -/
def assessHandlers (resp : RespOutcome) : List (PyExcClass × AssessOut) :=
  [(.valueErrorC, .refusal), (.jsonDecodeErrorC, .rawAssessment (respText resp))]

/-- The parse stage of `assess_patient`: run the try body
(`response.text`, `json.loads`, summary coercion), and on an exception
dispatch it to the first matching `except` clause; an unmatched exception
propagates. -/
def assessParseResult (pyStr : Json → String) (loads : String → Option Json)
    (resp : RespOutcome) : Except AssessExc AssessOut :=
  let body : Except AssessExc Json :=
    match resp with
    | .noParts => .error .valueErrorE
    | .text s =>
        match loads s with
        | none => .error .jsonDecodeErrorE
        | some j => coerceSummary pyStr j
  match body with
  | .ok d => .ok (.parsed d)
  | .error e =>
      match firstHandler e (assessHandlers resp) with
      | some r => .ok r
      | none => .error e

/-! ## Structural companions of the dedup loops

Both dedup loops of `chat_with_guidelines` (chunks keyed by text content,
citations keyed by the `(page, excerpt)` signature) are instances of one
first-occurrence-wins scheme. `dedupByGo` is its structural form, to which
the accumulator loops are related by bridging lemmas below. -/

/-- First-occurrence-wins deduplication of a list by a key, structurally:
skip an element whose key was already seen, keep it and record its key
otherwise. -/
def dedupByGo {α κ : Type} [DecidableEq κ] (key : α → κ) (seen : List κ) :
    List α → List α
  | [] => []
  | a :: rest =>
      if key a ∈ seen then dedupByGo key seen rest
      else a :: dedupByGo key (key a :: seen) rest

/-- Pure field lookup on a JSON object with a default (what `d.get(k, d0)`
computes once `d` is known to be a dict). -/
def objGetD (c : Json) (k : String) (d : Json) : Json :=
  match c with
  | .obj fs =>
      match fs.toList.find? (fun f => f.1 = k) with
      | some f => f.2
      | none => d
  | _ => d

/-- The `(page, excerpt)` signature of a citation dict. -/
def citSig (c : Json) : Json × Json :=
  (objGetD c "page" .null, objGetD c "excerpt" .null)

/-- A sequence of `assess_patient` calls with the given patient ids,
threading the lru_cache state. -/
def assessRun (f : String → β) (ids : List String) (st : LruState β) :
    LruState β :=
  match ids with
  | [] => st
  | k :: ks => assessRun f ks (assess_patient_cached f k st).2

/-! ## Theorems -/

/-! ### Properties of the first-occurrence-wins scheme -/

theorem dedupByGo_sublist {α κ : Type} [DecidableEq κ] (key : α → κ) :
    ∀ (l : List α) (seen : List κ), List.Sublist (dedupByGo key seen l) l := by
  intro l
  induction l with
  | nil => intro seen; simp [dedupByGo]
  | cons a rest ih =>
      intro seen
      by_cases h : key a ∈ seen
      · rw [dedupByGo, if_pos h]
        exact List.Sublist.cons a (ih seen)
      · rw [dedupByGo, if_neg h]
        exact List.Sublist.cons₂ a (ih _)

theorem dedupByGo_keys {α κ : Type} [DecidableEq κ] (key : α → κ) :
    ∀ (l : List α) (seen : List κ),
      (dedupByGo key seen l).Pairwise (fun a b => key a ≠ key b) ∧
      ∀ a ∈ dedupByGo key seen l, key a ∉ seen := by
  intro l
  induction l with
  | nil => intro seen; simp [dedupByGo]
  | cons a rest ih =>
      intro seen
      by_cases h : key a ∈ seen
      · rw [dedupByGo, if_pos h]
        exact ih seen
      · rw [dedupByGo, if_neg h]
        have ih' := ih (key a :: seen)
        constructor
        · refine List.Pairwise.cons ?_ ih'.1
          intro b hb heq
          exact (ih'.2 b hb) (heq ▸ List.mem_cons_self _ _)
        · intro x hx
          rcases List.mem_cons.mp hx with rfl | hx'
          · exact h
          · exact fun hs => (ih'.2 x hx') (List.mem_cons_of_mem _ hs)

theorem dedupByGo_mem_map {α κ : Type} [DecidableEq κ] (key : α → κ) :
    ∀ (l : List α) (seen : List κ) (x : κ),
      x ∈ (dedupByGo key seen l).map key ↔ x ∉ seen ∧ x ∈ l.map key := by
  intro l
  induction l with
  | nil => intro seen x; simp [dedupByGo]
  | cons a rest ih =>
      intro seen x
      by_cases h : key a ∈ seen
      · rw [dedupByGo, if_pos h, List.map_cons, List.mem_cons]
        rw [ih seen x]
        constructor
        · rintro ⟨hns, hm⟩
          exact ⟨hns, Or.inr hm⟩
        · rintro ⟨hns, hm | hm⟩
          · exact absurd (hm ▸ h) hns
          · exact ⟨hns, hm⟩
      · rw [dedupByGo, if_neg h, List.map_cons, List.map_cons, List.mem_cons,
          List.mem_cons]
        rw [ih (key a :: seen) x]
        constructor
        · rintro (rfl | ⟨hns, hm⟩)
          · exact ⟨h, Or.inl rfl⟩
          · exact ⟨fun hs => hns (List.mem_cons_of_mem _ hs), Or.inr hm⟩
        · rintro ⟨hns, rfl | hm⟩
          · exact Or.inl rfl
          · by_cases hxa : x = key a
            · exact Or.inl hxa
            · refine Or.inr ⟨?_, hm⟩
              intro hc
              rcases List.mem_cons.mp hc with he | hs
              · exact hxa he
              · exact hns hs

theorem dedupByGo_first {α κ : Type} [DecidableEq κ] (key : α → κ) :
    ∀ (l : List α) (seen : List κ) (a : α), a ∈ dedupByGo key seen l →
      l.find? (fun x => key x = key a) = some a := by
  intro l
  induction l with
  | nil => intro seen a ha; simp [dedupByGo] at ha
  | cons b rest ih =>
      intro seen a ha
      by_cases h : key b ∈ seen
      · rw [dedupByGo, if_pos h] at ha
        have hka : key a ∉ seen := (dedupByGo_keys key rest seen).2 a ha
        have hne : ¬ key b = key a := fun he => hka (he ▸ h)
        rw [List.find?_cons_of_neg _ (by simp [hne])]
        exact ih seen a ha
      · rw [dedupByGo, if_neg h] at ha
        rcases List.mem_cons.mp ha with rfl | ha'
        · exact List.find?_cons_of_pos _ (by simp)
        · have hka : key a ∉ key b :: seen :=
            (dedupByGo_keys key rest (key b :: seen)).2 a ha'
          have hne : ¬ key b = key a :=
            fun he => hka (he ▸ List.mem_cons_self _ _)
          rw [List.find?_cons_of_neg _ (by simp [hne])]
          exact ih (key b :: seen) a ha'

/-! ### Bridging the source loops to the structural scheme -/

theorem dedupDocsLoop_eq :
    ∀ (l u : List Doc) (seen : List String),
      dedupDocsLoop u seen l = u ++ dedupByGo Doc.page_content seen l := by
  intro l
  induction l with
  | nil => intro u seen; simp [dedupDocsLoop, dedupByGo]
  | cons d rest ih =>
      intro u seen
      by_cases h : d.page_content ∈ seen
      · rw [dedupDocsLoop, if_pos h, dedupByGo, if_pos h, ih]
      · rw [dedupDocsLoop, if_neg h, dedupByGo, if_neg h, ih]
        simp

theorem dictGetD_isObj {c : Json} (h : c.isObj = true) (k : String) (d : Json) :
    dictGetD c k d = .ok (objGetD c k d) := by
  cases c with
  | obj fs =>
      cases hf : fs.toList.find? (fun f => f.1 = k) with
      | some f => simp [dictGetD, objGetD, hf]
      | none => simp [dictGetD, objGetD, hf]
  | null => simp [Json.isObj] at h
  | bool b => simp [Json.isObj] at h
  | num n => simp [Json.isObj] at h
  | str s => simp [Json.isObj] at h
  | arr xs => simp [Json.isObj] at h

theorem dictGetOpt_ok {c v : Json} {k : String} (h : dictGetOpt c k = .ok v) :
    c.isObj = true ∧ v = objGetD c k .null := by
  cases c with
  | obj fs =>
      refine ⟨rfl, ?_⟩
      rw [dictGetOpt, dictGetD_isObj (show (Json.obj fs).isObj = true from rfl)] at h
      injection h with h
      exact h.symm
  | null => simp [dictGetOpt, dictGetD] at h
  | bool b => simp [dictGetOpt, dictGetD] at h
  | num n => simp [dictGetOpt, dictGetD] at h
  | str s => simp [dictGetOpt, dictGetD] at h
  | arr xs => simp [dictGetOpt, dictGetD] at h

theorem dedupCitationsLoop_of_objs :
    ∀ (l u : List Json) (seen : List (Json × Json)),
      (∀ c ∈ l, c.isObj = true) →
      dedupCitationsLoop u seen l = .ok (u ++ dedupByGo citSig seen l) := by
  intro l
  induction l with
  | nil => intro u seen _; simp [dedupCitationsLoop, dedupByGo]
  | cons c rest ih =>
      intro u seen h
      have hc : c.isObj = true := h c (List.mem_cons_self c rest)
      have h' : ∀ x ∈ rest, x.isObj = true :=
        fun x hx => h x (List.mem_cons_of_mem _ hx)
      rw [dedupCitationsLoop]
      rw [show dictGetOpt c "page" = .ok (objGetD c "page" .null) from
        dictGetD_isObj hc "page" .null]
      rw [show dictGetOpt c "excerpt" = .ok (objGetD c "excerpt" .null) from
        dictGetD_isObj hc "excerpt" .null]
      simp only []
      rw [show (objGetD c "page" Json.null, objGetD c "excerpt" Json.null) = citSig c
        from rfl]
      by_cases hs : citSig c ∈ seen
      · rw [if_pos hs, dedupByGo, if_pos hs]
        exact ih _ _ h'
      · rw [if_neg hs, dedupByGo, if_neg hs, ih _ _ h']
        simp

theorem dedupCitationsLoop_ok_eq :
    ∀ (l u : List Json) (seen : List (Json × Json)) (out : List Json),
      dedupCitationsLoop u seen l = .ok out →
      out = u ++ dedupByGo citSig seen l := by
  intro l
  induction l with
  | nil =>
      intro u seen out h
      rw [dedupCitationsLoop] at h
      injection h with h
      simp [dedupByGo, h.symm]
  | cons c rest ih =>
      intro u seen out h
      rw [dedupCitationsLoop] at h
      cases hp : dictGetOpt c "page" with
      | error e => rw [hp] at h; cases h
      | ok pg =>
          rw [hp] at h
          cases hq : dictGetOpt c "excerpt" with
          | error e => rw [hq] at h; cases h
          | ok ex =>
              rw [hq] at h
              simp only [] at h
              have hpg := (dictGetOpt_ok hp).2
              have hex := (dictGetOpt_ok hq).2
              have hsig : (pg, ex) = citSig c := by rw [hpg, hex]; rfl
              rw [hsig] at h
              by_cases hs : citSig c ∈ seen
              · rw [if_pos hs] at h
                rw [dedupByGo, if_pos hs]
                exact ih _ _ _ h
              · rw [if_neg hs] at h
                rw [dedupByGo, if_neg hs]
                rw [ih _ _ _ h]
                simp

/-- Claim C1 (the code violates it): `add_new_patients` checks incoming
IDs only against the set of IDs present before the call, so an input list
holding two records with the same new ID gets both appended — the store
ends with two records sharing `patient_id` `"p100"` and the call reports
2 added. -/
theorem add_new_patients_duplicate_new_ids :
    add_new_patients [] [⟨some "p100", Json.null⟩, ⟨some "p100", Json.null⟩]
      = some ([⟨some "p100", Json.null⟩, ⟨some "p100", Json.null⟩], 2) ∧
    ¬ (List.map PatientRec.pid
        [(⟨some "p100", Json.null⟩ : PatientRec), ⟨some "p100", Json.null⟩]).Nodup := by
  exact ⟨rfl, by decide⟩

/-- Claim C9: against a store whose records all carry IDs, adding a single
patient whose ID already exists leaves the record list unchanged and
returns 0; adding two patients — one duplicate ID, one new — returns 1 and
appends exactly the new record, in either input order. -/
theorem add_new_patients_count_semantics
    (stored : List PatientRec) (ids : List String)
    (hids : stored.mapM PatientRec.pid = some ids)
    (p1 p2 : PatientRec) (a b : String)
    (hp1 : p1.pid = some a) (ha : a ∈ ids)
    (hp2 : p2.pid = some b) (hb : b ∉ ids) :
    add_new_patients stored [p1] = some (stored, 0) ∧
    add_new_patients stored [p1, p2] = some (stored ++ [p2], 1) ∧
    add_new_patients stored [p2, p1] = some (stored ++ [p2], 1) := by
  unfold add_new_patients
  rw [hids]
  simp [addLoop, hp1, hp2, ha, hb]

/-- Witness for C9 at a concrete store and input. -/
theorem add_new_patients_count_semantics_witness :
    add_new_patients [⟨some "p001", Json.null⟩] [⟨some "p001", Json.null⟩] =
      some ([⟨some "p001", Json.null⟩], 0) ∧
    add_new_patients [⟨some "p001", Json.null⟩]
        [⟨some "p001", Json.null⟩, ⟨some "p002", Json.null⟩] =
      some ([⟨some "p001", Json.null⟩, ⟨some "p002", Json.null⟩], 1) := by
  have h := add_new_patients_count_semantics [⟨some "p001", Json.null⟩] ["p001"]
    rfl ⟨some "p001", Json.null⟩ ⟨some "p002", Json.null⟩ "p001" "p002"
    rfl (by decide) rfl (by decide)
  exact ⟨h.1, h.2.1⟩

/-- Claim C10: clearing an absent session leaves the store unchanged
(raising nothing — the embedded operation is total), and the history of
that session is empty both before and after the clear. -/
theorem clear_absent_session (sessions : Sessions) (session_id : String)
    (h : sessionsGet sessions session_id = none) :
    clear_chat_history sessions session_id = sessions ∧
    get_chat_history sessions session_id = [] ∧
    get_chat_history (clear_chat_history sessions session_id) session_id = [] := by
  simp [clear_chat_history, get_chat_history, h]

/-- Witness for C10 at a concrete store holding an unrelated session. -/
theorem clear_absent_session_witness :
    clear_chat_history [("a", [])] "b" = [("a", [])] ∧
    get_chat_history ([("a", ([] : List Msg))] : Sessions) "b" = [] ∧
    get_chat_history (clear_chat_history [("a", [])] "b") "b" = [] :=
  clear_absent_session [("a", [])] "b" rfl

/-- Claim C8: in both the chat context block and the assessment context
block, an int page metadata value is displayed incremented by 1, and a
non-int page metadata value is passed through unchanged. -/
theorem page_display_indexing :
    (∀ (s : String) (n : Int),
      chatDisplayPage ⟨s, some (.int n)⟩ = .int (n + 1) ∧
      assessDisplayPage ⟨s, some (.int n)⟩ = .int (n + 1)) ∧
    (∀ (s t : String),
      chatDisplayPage ⟨s, some (.str t)⟩ = .str t ∧
      assessDisplayPage ⟨s, some (.str t)⟩ = .str t) :=
  ⟨fun _ _ => ⟨rfl, rfl⟩, fun _ _ => ⟨rfl, rfl⟩⟩

/-- Claim C3: the deduplicated chunk list the chat context block is
composed from keeps a subsequence of the retrieved docs (original
retrieval order), contains each distinct `page_content` string exactly
once, and for each kept doc the first doc in retrieval order with that
content is the one kept. -/
theorem chat_context_dedup (docs : List Doc) :
    List.Sublist (uniqueDocs docs) docs ∧
    (∀ s ∈ docs.map Doc.page_content,
      ((uniqueDocs docs).map Doc.page_content).count s = 1) ∧
    (∀ d ∈ uniqueDocs docs,
      docs.find? (fun x => x.page_content = d.page_content) = some d) := by
  have hu : uniqueDocs docs = dedupByGo Doc.page_content [] docs := by
    rw [uniqueDocs, dedupDocsLoop_eq]
    simp
  refine ⟨?_, ?_, ?_⟩
  · rw [hu]
    exact dedupByGo_sublist _ docs []
  · intro s hs
    rw [hu]
    have hnd : ((dedupByGo Doc.page_content [] docs).map Doc.page_content).Nodup :=
      List.Pairwise.map _ (fun a b hab => hab)
        (dedupByGo_keys Doc.page_content docs []).1
    have hmem : s ∈ (dedupByGo Doc.page_content [] docs).map Doc.page_content := by
      rw [dedupByGo_mem_map]
      exact ⟨by simp, hs⟩
    exact List.count_eq_one_of_mem hnd hmem
  · intro d hd
    rw [hu] at hd
    exact dedupByGo_first _ docs [] d hd

/-- Witness for C3 at a retrieval list with a duplicated chunk text. -/
theorem chat_context_dedup_witness :
    ((uniqueDocs [⟨"recommendation 1.1", none⟩, ⟨"recommendation 1.2", none⟩,
        ⟨"recommendation 1.1", some (PageVal.int 4)⟩]).map
      Doc.page_content).count "recommendation 1.1" = 1 :=
  (chat_context_dedup [⟨"recommendation 1.1", none⟩, ⟨"recommendation 1.2", none⟩,
    ⟨"recommendation 1.1", some (PageVal.int 4)⟩]).2.1
    "recommendation 1.1" (by simp)

/-- Claim C5: the citation list returned by the chat flow contains no two
entries with the same `(page, excerpt)` signature, and the kept entry for
each signature is the first occurrence in the model's order: on a list of
citation dicts the dedup loop returns exactly the first-wins
deduplication, and every `ok` outcome of `chat_with_guidelines` carries
signature-pairwise-distinct citations. -/
theorem chat_citations_dedup (raw : List Json)
    (h : ∀ c ∈ raw, c.isObj = true) :
    dedupCitationsLoop [] [] raw = .ok (dedupByGo citSig [] raw) ∧
    (dedupByGo citSig [] raw).Pairwise (fun a b => citSig a ≠ citSig b) ∧
    (∀ c ∈ dedupByGo citSig [] raw,
      raw.find? (fun x => citSig x = citSig c) = some c) ∧
    ∀ (loads : String → Option Json) (modelOutcome : Except Unit String)
      (docs : List Doc) (sessions : Sessions) (sid msg : String)
      (ret : ChatReturn) (sessions2 : Sessions),
      chat_with_guidelines loads modelOutcome docs sessions sid msg =
        (Except.ok ret, sessions2) →
      ret.citations.Pairwise (fun a b => citSig a ≠ citSig b) := by
  refine ⟨?_, ?_, ?_, ?_⟩
  · have := dedupCitationsLoop_of_objs raw [] [] h
    simpa using this
  · exact (dedupByGo_keys citSig raw []).1
  · intro c hc
    exact dedupByGo_first citSig raw [] c hc
  · intro loads modelOutcome docs sessions sid msg ret sessions2 hEq
    simp only [chat_with_guidelines] at hEq
    split at hEq
    · cases hEq
    · split at hEq
      · cases hEq
      · split at hEq
        · cases hEq
        · split at hEq
          · cases hEq
          · rename_i unique_citations hloop
            have hout := dedupCitationsLoop_ok_eq _ _ _ _ hloop
            have hfst := congrArg Prod.fst hEq
            simp only [] at hfst
            injection hfst with hfst
            rw [← hfst]
            simp only []
            rw [hout]
            simp only [List.nil_append]
            exact (dedupByGo_keys citSig _ []).1

/-- Witness for C5 at a citation list with a duplicated (page, excerpt)
pair. -/
theorem chat_citations_dedup_witness :
    dedupCitationsLoop [] []
        [Json.objOf [("page", Json.num 3), ("excerpt", Json.str "quote a")],
         Json.objOf [("page", Json.num 3), ("excerpt", Json.str "quote a"),
           ("source", Json.str "NG12 PDF")],
         Json.objOf [("page", Json.num 4), ("excerpt", Json.str "quote a")]] =
      .ok (dedupByGo citSig []
        [Json.objOf [("page", Json.num 3), ("excerpt", Json.str "quote a")],
         Json.objOf [("page", Json.num 3), ("excerpt", Json.str "quote a"),
           ("source", Json.str "NG12 PDF")],
         Json.objOf [("page", Json.num 4), ("excerpt", Json.str "quote a")]]) ∧
    (dedupByGo citSig []
        [Json.objOf [("page", Json.num 3), ("excerpt", Json.str "quote a")],
         Json.objOf [("page", Json.num 3), ("excerpt", Json.str "quote a"),
           ("source", Json.str "NG12 PDF")],
         Json.objOf [("page", Json.num 4), ("excerpt", Json.str "quote a")]]).Pairwise
      (fun a b => citSig a ≠ citSig b) :=
  ⟨(chat_citations_dedup
      [Json.objOf [("page", Json.num 3), ("excerpt", Json.str "quote a")],
       Json.objOf [("page", Json.num 3), ("excerpt", Json.str "quote a"),
         ("source", Json.str "NG12 PDF")],
       Json.objOf [("page", Json.num 4), ("excerpt", Json.str "quote a")]]
      (by decide)).1,
   (chat_citations_dedup
      [Json.objOf [("page", Json.num 3), ("excerpt", Json.str "quote a")],
       Json.objOf [("page", Json.num 3), ("excerpt", Json.str "quote a"),
         ("source", Json.str "NG12 PDF")],
       Json.objOf [("page", Json.num 4), ("excerpt", Json.str "quote a")]]
      (by decide)).2.1⟩

/-! ### Session-store lemmas -/

theorem sessionsGet_setSession_self (s : Sessions) (k : String) (v : List Msg) :
    sessionsGet (setSession s k v) k = some v := by
  induction s with
  | nil => simp [setSession, sessionsGet, List.find?]
  | cons e rest ih =>
      by_cases h : e.1 = k
      · simp [setSession, if_pos h, sessionsGet, List.find?]
      · rw [setSession, if_neg h]
        rw [sessionsGet] at ih ⊢
        rw [List.find?_cons_of_neg _ (by simp [h])]
        exact ih

theorem sessionsGet_none_eq (s : Sessions) (k : String)
    (h : ¬ (sessionsGet s k).isSome) : sessionsGet s k = none := by
  cases hv : sessionsGet s k with
  | none => rfl
  | some v => rw [hv] at h; simp at h

theorem get_chat_history_ensure (s : Sessions) (k : String) :
    get_chat_history (if (sessionsGet s k).isSome then s else setSession s k []) k =
      get_chat_history s k := by
  by_cases h : (sessionsGet s k).isSome
  · rw [if_pos h]
  · rw [if_neg h]
    rw [get_chat_history, get_chat_history, sessionsGet_setSession_self,
      sessionsGet_none_eq s k h]
    rfl

/-- Claim C6 (amended): provided the effective response value is a JSON
object — which holds whenever the fallback fires and whenever the model
output parses to an object — one chat call appends exactly one user
message followed by one assistant message to the session's history,
taking its length from N to N+2; the counterexample below shows the
unconditional claim fails when the parsed output is not an object. -/
theorem chat_turn_append (loads : String → Option Json)
    (modelOutcome : Except Unit String) (docs : List Doc)
    (sessions : Sessions) (session_id user_message : String)
    (h : (effectiveResponse loads modelOutcome).isObj = true) :
    get_chat_history (chat_with_guidelines loads modelOutcome docs sessions
        session_id user_message).2 session_id =
      get_chat_history sessions session_id ++
        [{ role := "user", content := .str user_message },
         { role := "model", content :=
            objGetD (effectiveResponse loads modelOutcome) "answer" (.str "") }] ∧
    (get_chat_history (chat_with_guidelines loads modelOutcome docs sessions
        session_id user_message).2 session_id).length =
      (get_chat_history sessions session_id).length + 2 := by
  have key : get_chat_history (chat_with_guidelines loads modelOutcome docs sessions
      session_id user_message).2 session_id =
      get_chat_history sessions session_id ++
        [{ role := "user", content := .str user_message },
         { role := "model", content :=
            objGetD (effectiveResponse loads modelOutcome) "answer" (.str "") }] := by
    simp only [chat_with_guidelines]
    rw [dictGetD_isObj h "answer" (Json.str ""),
      dictGetD_isObj h "citations" (Json.arrOf [])]
    simp only []
    split
    · rw [get_chat_history, sessionsGet_setSession_self]
      rw [show ∀ l : List Msg, (some l).getD [] = l from fun l => rfl]
      rw [get_chat_history_ensure]
      simp
    · split
      · rw [get_chat_history, sessionsGet_setSession_self]
        rw [show ∀ l : List Msg, (some l).getD [] = l from fun l => rfl]
        rw [get_chat_history_ensure]
        simp
      · rw [get_chat_history, sessionsGet_setSession_self]
        rw [show ∀ l : List Msg, (some l).getD [] = l from fun l => rfl]
        rw [get_chat_history_ensure]
        simp
  refine ⟨key, ?_⟩
  rw [key]
  simp

/-- Witness for C6 at a concrete model response object. -/
theorem chat_turn_append_witness :
    get_chat_history (chat_with_guidelines
        (fun _ => some (Json.objOf [("answer", Json.str "ok")]))
        (Except.ok "x") [] [] "s" "m").2 "s" =
      get_chat_history ([] : Sessions) "s" ++
        [{ role := "user", content := .str "m" },
         { role := "model", content :=
            objGetD (effectiveResponse
              (fun _ => some (Json.objOf [("answer", Json.str "ok")]))
              (Except.ok "x")) "answer" (.str "") }] :=
  (chat_turn_append (fun _ => some (Json.objOf [("answer", Json.str "ok")]))
    (Except.ok "x") [] [] "s" "m" rfl).1

/-- Claim C4: when the model call raises, or its text does not parse as
JSON, the chat flow returns the fixed fallback answer with an empty
citation list, and no exception propagates (the outcome is `ok`). -/
theorem chat_fallback (loads : String → Option Json)
    (modelOutcome : Except Unit String) (docs : List Doc)
    (sessions : Sessions) (session_id user_message : String)
    (h : modelOutcome = Except.error () ∨
      ∃ t, modelOutcome = Except.ok t ∧ loads t = none) :
    (chat_with_guidelines loads modelOutcome docs sessions session_id user_message).1 =
      Except.ok
        { session_id := session_id,
          answer := Json.str "I encountered an error processing your request. Please try again.",
          citations := [] } := by
  rcases h with h | ⟨t, ht, hl⟩
  · subst h; rfl
  · subst ht
    simp only [chat_with_guidelines, effectiveResponse, hl]
    rfl

/-- Witness for C4: concrete model text that is not valid JSON. -/
theorem chat_fallback_witness :
    (chat_with_guidelines (fun _ => none) (Except.ok "not json") [] [] "s1" "hi").1 =
      Except.ok
        { session_id := "s1",
          answer := Json.str "I encountered an error processing your request. Please try again.",
          citations := [] } :=
  chat_fallback (fun _ => none) (Except.ok "not json") [] [] "s1" "hi"
    (Or.inr ⟨"not json", rfl, rfl⟩)

/-- Counterexample to claim C6 as stated: when the model output is valid
JSON but not an object (here the empty array), the chat call appends the
user message, then raises `AttributeError` at `response_json.get` before
the assistant message is appended — the session history ends with length
1, not N+2, and the exception propagates. -/
theorem chat_turn_append_cex :
    (chat_with_guidelines (fun _ => some (Json.arrOf [])) (Except.ok "[]")
        [] [] "s" "hello").1 = Except.error PyErr.attributeError ∧
    get_chat_history (chat_with_guidelines (fun _ => some (Json.arrOf []))
        (Except.ok "[]") [] [] "s" "hello").2 "s"
      = [{ role := "user", content := Json.str "hello" }] :=
  ⟨rfl, rfl⟩

/-- Claim C7: when the model responds with text that is not valid JSON,
`json.JSONDecodeError` is raised, and — being a subclass of `ValueError` —
it is dispatched to the `except ValueError` clause, so the fixed "Unable
to assess" payload is returned; the `except json.JSONDecodeError` clause
returning the raw-assessment payload is unreachable on every input. -/
theorem assess_parse_dispatch (pyStr : Json → String)
    (loads : String → Option Json) (s : String) (h : loads s = none) :
    assessParseResult pyStr loads (.text s) = .ok .refusal ∧
    ∀ (resp : RespOutcome) (loads2 : String → Option Json) (t : String),
      assessParseResult pyStr loads2 resp ≠ Except.ok (.rawAssessment t) := by
  constructor
  · simp [assessParseResult, h, firstHandler, assessHandlers, isInstanceOf]
  · intro resp loads2 t hEq
    cases resp with
    | noParts =>
        simp [assessParseResult, firstHandler, assessHandlers, isInstanceOf] at hEq
    | text u =>
        cases hl : loads2 u with
        | none =>
            simp [assessParseResult, hl, firstHandler, assessHandlers, isInstanceOf] at hEq
        | some j =>
            cases hc : coerceSummary pyStr j with
            | ok d =>
                simp [assessParseResult, hl, hc] at hEq
            | error e =>
                cases e <;>
                  simp [assessParseResult, hl, hc, firstHandler, assessHandlers,
                    isInstanceOf] at hEq

/-- Witness for C7 at concrete non-JSON model text. -/
theorem assess_parse_dispatch_witness :
    assessParseResult (fun _ => "") (fun _ => none) (.text "not json") = .ok .refusal ∧
    assessParseResult (fun _ => "") (fun _ => none) (.text "not json") ≠
      Except.ok (.rawAssessment "not json") :=
  ⟨(assess_parse_dispatch (fun _ => "") (fun _ => none) "not json" rfl).1,
   (assess_parse_dispatch (fun _ => "") (fun _ => none) "not json" rfl).2
     (.text "not json") (fun _ => none) "not json"⟩

/-! ### Lru-cache lemmas for the assessment memo (claim C2) -/

theorem find?_eraseP_of_disjoint {α : Type} (p q : α → Bool)
    (h : ∀ x, p x = true → q x = false) :
    ∀ l : List α, (l.eraseP p).find? q = l.find? q := by
  intro l
  induction l with
  | nil => rfl
  | cons a l ih =>
      by_cases hp : p a
      · rw [List.eraseP_cons_of_pos hp]
        rw [List.find?_cons_of_neg _ (by simp [h a hp])]
      · rw [List.eraseP_cons_of_neg hp]
        by_cases hq : q a
        · rw [List.find?_cons_of_pos _ hq, List.find?_cons_of_pos _ hq]
        · rw [List.find?_cons_of_neg _ hq, List.find?_cons_of_neg _ hq, ih]

theorem map_fst_eraseP {β : Type} (m : String) :
    ∀ l : List (String × β),
      (l.eraseP (fun e => e.1 = m)).map Prod.fst =
        (l.map Prod.fst).eraseP (fun x => x = m) := by
  intro l
  induction l with
  | nil => rfl
  | cons e l ih =>
      by_cases h : e.1 = m
      · rw [List.eraseP_cons_of_pos (by simp [h]), List.map_cons,
          List.eraseP_cons_of_pos (by simp [h])]
      · rw [List.eraseP_cons_of_neg (by simp [h]), List.map_cons, List.map_cons,
          List.eraseP_cons_of_neg (by simp [h]), ih]

theorem not_mem_eraseP_self {l : List String} (hn : l.Nodup) (a : String) :
    a ∉ l.eraseP (fun x => x = a) := by
  induction l with
  | nil => simp
  | cons b l ih =>
      rw [List.nodup_cons] at hn
      by_cases h : b = a
      · rw [List.eraseP_cons_of_pos (by simp [h])]
        exact h ▸ hn.1
      · rw [List.eraseP_cons_of_neg (by simp [h])]
        intro hmem
        rcases List.mem_cons.mp hmem with he | hmem'
        · exact h he.symm
        · exact ih hn.2 hmem'

theorem lruLookup_mem {β : Type} {l : List (String × β)} {k : String} {v : β}
    (h : lruLookup l k = some v) : k ∈ l.map Prod.fst := by
  rw [lruLookup] at h
  cases hf : l.find? (fun e => e.1 = k) with
  | none => rw [hf] at h; cases h
  | some e =>
      have he : e.1 = k := by
        have := List.find?_some hf
        simpa using this
      have hmem := List.mem_of_find?_eq_some hf
      exact he ▸ List.mem_map_of_mem Prod.fst hmem

theorem lruLookup_none {β : Type} {l : List (String × β)} {k : String}
    (h : lruLookup l k = none) : k ∉ l.map Prod.fst := by
  rw [lruLookup] at h
  cases hf : l.find? (fun e => e.1 = k) with
  | some e => rw [hf] at h; cases h
  | none =>
      intro hk
      rcases List.mem_map.mp hk with ⟨e, he, hek⟩
      have := List.find?_eq_none.mp hf e he
      simp [hek] at this

theorem lruCall_preserves {β : Type} (f : String → β) (S : Finset String)
    (hS : S.card ≤ 32) (m : String) (hm : m ∈ S) (k : String) (v : β)
    (st : LruState β)
    (hn : (st.entries.map Prod.fst).Nodup)
    (hsub : ∀ x ∈ st.entries.map Prod.fst, x ∈ S)
    (hk : lruLookup st.entries k = some v) :
    ((lruCall 32 f m st).2.entries.map Prod.fst).Nodup ∧
      (∀ x ∈ (lruCall 32 f m st).2.entries.map Prod.fst, x ∈ S) ∧
      lruLookup (lruCall 32 f m st).2.entries k = some v := by
  cases hLm : lruLookup st.entries m with
  | some w =>
      have hmm : m ∈ st.entries.map Prod.fst := lruLookup_mem hLm
      simp only [lruCall, hLm]
      refine ⟨?_, ?_, ?_⟩
      · rw [List.map_cons, map_fst_eraseP]
        rw [List.nodup_cons]
        exact ⟨not_mem_eraseP_self hn m,
          ((List.eraseP_sublist _).nodup hn : _)⟩
      · intro x hx
        rw [List.map_cons] at hx
        rcases List.mem_cons.mp hx with rfl | hx'
        · exact hm
        · have hsb : (st.entries.eraseP (fun e => e.1 = m)).map Prod.fst
              ⊆ st.entries.map Prod.fst :=
            ((List.eraseP_sublist _).map Prod.fst).subset
          exact hsub x (hsb hx')
      · by_cases hkm : k = m
        · subst hkm
          rw [hLm] at hk
          injection hk with hk
          rw [lruLookup]
          rw [List.find?_cons_of_pos _ (by simp)]
          simp [hk]
        · have hmk' : ¬ m = k := fun he => hkm he.symm
          rw [lruLookup]
          rw [List.find?_cons_of_neg _ (by simpa using hmk')]
          rw [find?_eraseP_of_disjoint (fun (e : String × β) => e.1 = m)
            (fun (e : String × β) => e.1 = k)
            (by intro x hx; simp at hx ⊢; rw [hx]; exact hmk')]
          exact hk
  | none =>
      have hmk : m ∉ st.entries.map Prod.fst := lruLookup_none hLm
      have hlen : st.entries.length + 1 ≤ 32 := by
        have h2 : ∀ x ∈ st.entries.map Prod.fst, x ∈ S.erase m := by
          intro x hx
          rw [Finset.mem_erase]
          exact ⟨fun he => hmk (he ▸ hx), hsub x hx⟩
        have h3 : (st.entries.map Prod.fst).length ≤ (S.erase m).card := by
          rw [← List.toFinset_card_of_nodup hn]
          exact Finset.card_le_card
            (fun x hx => h2 x (List.mem_toFinset.mp hx))
        have h4 : (S.erase m).card = S.card - 1 := Finset.card_erase_of_mem hm
        rw [List.length_map] at h3
        omega
      have htake : List.take 32 ((m, f m) :: st.entries) = (m, f m) :: st.entries :=
        List.take_of_length_le (by simp; omega)
      simp only [lruCall, hLm, htake]
      refine ⟨?_, ?_, ?_⟩
      · rw [List.map_cons, List.nodup_cons]
        exact ⟨hmk, hn⟩
      · intro x hx
        rw [List.map_cons] at hx
        rcases List.mem_cons.mp hx with rfl | hx'
        · exact hm
        · exact hsub x hx'
      · have hkmem : k ∈ st.entries.map Prod.fst := lruLookup_mem hk
        have hkm : ¬ k = m := fun he => hmk (he ▸ hkmem)
        have hmk' : ¬ m = k := fun he => hkm he.symm
        rw [lruLookup]
        rw [List.find?_cons_of_neg _ (by simpa using hmk')]
        exact hk

theorem assessRun_preserves {β : Type} (f : String → β) (S : Finset String)
    (hS : S.card ≤ 32) (k : String) (v : β) :
    ∀ (ms : List String) (st : LruState β),
      (∀ x ∈ ms, x ∈ S) →
      (st.entries.map Prod.fst).Nodup →
      (∀ x ∈ st.entries.map Prod.fst, x ∈ S) →
      lruLookup st.entries k = some v →
      ((assessRun f ms st).entries.map Prod.fst).Nodup ∧
        (∀ x ∈ (assessRun f ms st).entries.map Prod.fst, x ∈ S) ∧
        lruLookup (assessRun f ms st).entries k = some v := by
  intro ms
  induction ms with
  | nil => intro st _ hn hsub hk; exact ⟨hn, hsub, hk⟩
  | cons m ms ih =>
      intro st hms hn hsub hk
      have hm : m ∈ S := hms m (List.mem_cons_self m ms)
      have hstep := lruCall_preserves f S hS m hm k v st hn hsub hk
      rw [assessRun]
      exact ih _ (fun x hx => hms x (List.mem_cons_of_mem _ hx))
        hstep.1 hstep.2.1 hstep.2.2

/-- Claim C2 (amended): a repeated `assess_patient` call with the same
patient ID returns the first computed result without re-invoking the
body, provided at most 31 other distinct patient IDs appear in between
(the memo is an LRU cache of 32 entries, so the total set of distinct IDs
involved stays within 32 and the entry is never evicted); the
counterexample below shows the process-lifetime claim fails once 32 other
distinct IDs intervene. -/
theorem assess_patient_memo_bounded {β : Type} (f : String → β) (k : String)
    (ms : List String) (h : (k :: ms).toFinset.card ≤ 32) :
    (assess_patient_cached f k (assessRun f (k :: ms) ⟨[], []⟩)).1 = f k ∧
    (assess_patient_cached f k (assessRun f (k :: ms) ⟨[], []⟩)).2.log =
      (assessRun f (k :: ms) ⟨[], []⟩).log := by
  have hfirst : (assess_patient_cached f k (⟨[], []⟩ : LruState β)).2 =
      ⟨[(k, f k)], [k]⟩ := rfl
  have hrun : assessRun f (k :: ms) (⟨[], []⟩ : LruState β) =
      assessRun f ms ⟨[(k, f k)], [k]⟩ := by
    rw [assessRun, hfirst]
  have hms : ∀ x ∈ ms, x ∈ (k :: ms).toFinset := by
    intro x hx
    rw [List.mem_toFinset]
    exact List.mem_cons_of_mem _ hx
  have hkS : k ∈ (k :: ms).toFinset := by
    rw [List.mem_toFinset]
    exact List.mem_cons_self _ _
  have hinv := assessRun_preserves f ((k :: ms).toFinset) h k (f k) ms
    ⟨[(k, f k)], [k]⟩ hms (by simp)
    (by intro x hx; simp at hx; subst hx; exact hkS)
    (by rw [lruLookup]; simp)
  rcases hinv with ⟨_, _, hlook⟩
  rw [hrun]
  rw [assess_patient_cached, lruCall, hlook]
  exact ⟨rfl, rfl⟩

/-- Witness for the amended C2: one other patient assessed in between. -/
theorem assess_patient_memo_bounded_witness :
    (assess_patient_cached (fun _ => (0 : Nat)) "p1"
      (assessRun (fun _ => (0 : Nat)) ["p1", "p2"] ⟨[], []⟩)).1 = 0 ∧
    (assess_patient_cached (fun _ => (0 : Nat)) "p1"
        (assessRun (fun _ => (0 : Nat)) ["p1", "p2"] ⟨[], []⟩)).2.log =
      (assessRun (fun _ => (0 : Nat)) ["p1", "p2"] ⟨[], []⟩).log :=
  assess_patient_memo_bounded (fun _ => (0 : Nat)) "p1" ["p2"] (by decide)

set_option maxRecDepth 20000 in
/-- Counterexample to claim C2 as stated: after assessing 32 other
distinct patient IDs, the first ID has been evicted from the
`lru_cache(maxsize=32)` memo, and a repeated call re-invokes the body —
the invocation log records the ID twice. -/
theorem assess_patient_memo_cex :
    ((assessRun (fun _ => (0 : Nat))
        ("p0" :: ((List.range 32).map (fun i => "q" ++ toString i) ++ ["p0"]))
        ⟨[], []⟩).log.count "p0") = 2 := by
  decide

end NG12
